import Mathlib

/-!
Verification of the blog-frontend utility layer.

This file shallowly embeds the pure logic of the repository
(src/lib/site.ts, src/lib/api/types.ts, src/lib/api/client.ts,
src/lib/citations.ts, src/lib/safeFetch.ts) and proves the frozen
claims about it.

Modelling conventions:
- JavaScript strings are Lean String values; the handful of string
  operations used by the code (trim, split, endsWith, replace of a
  trailing-slash regex) are implemented below over the character list.
- The WHATWG URL object is embedded as the structure ParsedUrl holding
  the components this code reads (protocol, hostname, pathname,
  searchParams, hash).  Parsing a serialized URL back is modelled as
  the identity on the structure; the only string-level parsing the code
  performs on URLs it builds itself (splitting the appended path at the
  first number sign and question mark, as the URL constructor does) is
  modelled explicitly.  Dot-segment normalization and percent-encoding
  of exotic characters are not exercised by any claim and are omitted.
- JavaScript numbers are embedded as rationals plus NaN and the two
  infinities; the operations used (comparison, floor, ceil, min, max)
  are exact on this embedding for every value any claim touches.
- Fallible code returns Except or Option.
-/

namespace Blog

/-- JavaScript whitespace recognized by String.prototype.trim; the rare
Unicode space separators are omitted, no claim depends on them. -/
def isJsWhitespace (c : Char) : Bool :=
  c == ' ' || c == '\t' || c == '\n' || c == '\r' || c.toNat == 11 || c.toNat == 12 || c.toNat == 160

/-- JavaScript String.prototype.trim. -/
def jsTrim (s : String) : String :=
  ⟨((s.data.dropWhile isJsWhitespace).reverse.dropWhile isJsWhitespace).reverse⟩

/-- Drop every trailing slash character, as the regex replace of
a final run of slashes by the empty string does. -/
def dropTrailing (l : List Char) : List Char :=
  (l.reverse.dropWhile (· == '/')).reverse

/-- String.replace with the trailing-slash regex used throughout site.ts. -/
def stripTrailingSlashes (s : String) : String :=
  ⟨dropTrailing s.data⟩

/-- JavaScript String.prototype.endsWith. -/
def jsEndsWith (s suffix : String) : Bool :=
  List.isSuffixOf suffix.data s.data

/-- JavaScript String.prototype.startsWith. -/
def jsStartsWith (s p : String) : Bool :=
  List.isPrefixOf p.data s.data

/-- Split a string at the first occurrence of a character: the part
before it and the part after it (the whole string and the empty string
when the character is absent).  Models how the URL constructor cuts the
fragment (at the number sign) and the query (at the question mark) out
of the part after the host. -/
def splitAtFirst (s : String) (c : Char) : String × String :=
  let pre := s.data.takeWhile (· != c)
  let post := s.data.drop (pre.length + 1)
  (⟨pre⟩, ⟨post⟩)

/-- Hexadecimal digit value, for percent-decoding. -/
def hexVal (c : Char) : Option Nat :=
  if '0'.toNat ≤ c.toNat ∧ c.toNat ≤ '9'.toNat then some (c.toNat - '0'.toNat)
  else if 'a'.toNat ≤ c.toNat ∧ c.toNat ≤ 'f'.toNat then some (c.toNat - 'a'.toNat + 10)
  else if 'A'.toNat ≤ c.toNat ∧ c.toNat ≤ 'F'.toNat then some (c.toNat - 'A'.toNat + 10)
  else none

/-- Percent-decoding of a query component as URLSearchParams performs it:
a plus sign becomes a space and a valid percent escape becomes the coded
byte (multi-byte UTF-8 sequences are left as individual code points;
no claim exercises them). -/
def percentDecode : List Char → List Char
  | [] => []
  | '%' :: a :: b :: rest =>
    match hexVal a, hexVal b with
    | some x, some y => Char.ofNat (16 * x + y) :: percentDecode rest
    | _, _ => '%' :: percentDecode (a :: b :: rest)
  | '+' :: rest => ' ' :: percentDecode rest
  | c :: rest => c :: percentDecode rest

/-- Decode one query component. -/
def decodeQueryComponent (s : String) : String :=
  ⟨percentDecode s.data⟩

/-- String.prototype.split with a one-character separator, over the
character list. -/
def splitOnChar : List Char → Char → List (List Char)
  | [], _ => [[]]
  | x :: xs, c =>
    match splitOnChar xs c with
    | [] => [[]]
    | h :: t => if x == c then [] :: h :: t else (x :: h) :: t

/-- One ampersand-separated piece of a query string: nothing when the
piece is empty, otherwise the key before the first equals sign and the
value after it. -/
def parseQueryPiece (piece : List Char) : Option (String × String) :=
  if piece = [] then none
  else if piece.contains '=' then
    let pre := piece.takeWhile (· != '=')
    let post := piece.drop (pre.length + 1)
    some (decodeQueryComponent ⟨pre⟩, decodeQueryComponent ⟨post⟩)
  else some (decodeQueryComponent ⟨piece⟩, "")

/-- Parse a raw query string (without the leading question mark) into
ordered key-value pairs, as URLSearchParams does: split on ampersands,
skip empty pieces, and cut each piece at its first equals sign. -/
def parseQuery (s : String) : List (String × String) :=
  (splitOnChar s.data '&').filterMap parseQueryPiece

/-- new URLSearchParams(string): one leading question mark is removed
before parsing. -/
def parseSearchString (s : String) : List (String × String) :=
  match s.data with
  | '?' :: rest => parseQuery ⟨rest⟩
  | _ => parseQuery s

/-- URLSearchParams.get: the value of the first pair with the given key,
or null (None). -/
def getParam (params : List (String × String)) (key : String) : Option String :=
  (params.find? (fun p => p.1 == key)).map (·.2)

/-! ## JavaScript values

The API-facing code receives unknown JSON-shaped data.  JsValue embeds
the JavaScript values that can reach it: null, undefined, booleans,
numbers, strings, arrays and plain objects (objects as ordered key-value
lists with distinct keys, as JavaScript object literals are). -/

/-- A JavaScript number: NaN, one of the infinities, or a finite value
embedded as a rational.  The operations the code uses (comparison,
floor, ceil, min, max) are exact on this embedding; double rounding is
not exercised by any claim. -/
inductive JSNum where
  | nan : JSNum
  | posInf : JSNum
  | negInf : JSNum
  | fin : ℚ → JSNum
deriving DecidableEq, Repr

inductive JsValue where
  | vNull : JsValue
  | vUndefined : JsValue
  | vBool : Bool → JsValue
  | vNum : JSNum → JsValue
  | vStr : String → JsValue
  | vArr : List JsValue → JsValue
  | vObj : List (String × JsValue) → JsValue

/-- Property access with optional chaining: a missing key, or a receiver
that is not an object, yields undefined. -/
def jsGet (v : JsValue) (k : String) : JsValue :=
  match v with
  | .vObj fields =>
    match fields.find? (fun p => p.1 == k) with
    | some p => p.2
    | none => .vUndefined
  | _ => .vUndefined

/-- Object.prototype.hasOwnProperty for the embedded objects. -/
def hasOwnKey (fields : List (String × JsValue)) (k : String) : Bool :=
  (fields.find? (fun p => p.1 == k)).isSome

/-- The nullish-coalescing operator: null and undefined fall through. -/
def jsCoalesce (a b : JsValue) : JsValue :=
  match a with
  | .vNull => b
  | .vUndefined => b
  | _ => a

/-- JavaScript truthiness. -/
def jsTruthy (v : JsValue) : Bool :=
  match v with
  | .vNull => false
  | .vUndefined => false
  | .vBool b => b
  | .vNum .nan => false
  | .vNum .posInf => true
  | .vNum .negInf => true
  | .vNum (.fin q) => q != 0
  | .vStr s => s != ""
  | .vArr _ => true
  | .vObj _ => true

def isDigitChar (c : Char) : Bool :=
  48 ≤ c.toNat && c.toNat ≤ 57

def isHexDigitChar (c : Char) : Bool :=
  (hexVal c).isSome

def digitsToNat (l : List Char) : Nat :=
  l.foldl (fun acc c => acc * 10 + (c.toNat - 48)) 0

def hexDigitsToNat (l : List Char) : Nat :=
  l.foldl (fun acc c => acc * 16 + ((hexVal c).getD 0)) 0

/-- The decimal part of the Number() grammar: optional sign, digits with
an optional fraction, and an optional decimal exponent; at least one
mantissa digit is required. -/
def parseDecimal (l : List Char) : Option ℚ :=
  let signed : ℚ × List Char :=
    match l with
    | '-' :: rest => (-1, rest)
    | '+' :: rest => (1, rest)
    | _ => (1, l)
  let intPart := signed.2.takeWhile isDigitChar
  let afterInt := signed.2.drop intPart.length
  let fracState : List Char × List Char :=
    match afterInt with
    | '.' :: rest => (rest.takeWhile isDigitChar, rest.drop (rest.takeWhile isDigitChar).length)
    | _ => ([], afterInt)
  if intPart = [] ∧ fracState.1 = [] then none
  else
    let mant : ℚ :=
      (digitsToNat intPart : ℚ) + (digitsToNat fracState.1 : ℚ) / ((10 : ℚ) ^ fracState.1.length)
    match fracState.2 with
    | [] => some (signed.1 * mant)
    | e :: rest =>
      if e == 'e' || e == 'E' then
        let esigned : Bool × List Char :=
          match rest with
          | '-' :: rr => (true, rr)
          | '+' :: rr => (false, rr)
          | _ => (false, rest)
        let eDigits := esigned.2.takeWhile isDigitChar
        if eDigits = [] ∨ esigned.2.drop eDigits.length ≠ [] then none
        else
          let factor : ℚ := (10 : ℚ) ^ (digitsToNat eDigits)
          some (signed.1 * mant * (if esigned.1 then factor⁻¹ else factor))
      else none

/-- A radix literal of Number(): all remaining characters are digits of
the radix and at least one is present. -/
def parseRadixDigits (digitOk : Char → Bool) (toVal : Char → Nat) (radix : Nat)
    (l : List Char) : Option ℚ :=
  if l ≠ [] ∧ l.all digitOk then
    some ((l.foldl (fun acc c => acc * radix + toVal c) 0 : Nat) : ℚ)
  else none

/-- Number(string): trimmed empty input is zero, the infinities are
named, a 0x, 0o or 0b prefix selects a radix, anything else goes through
the decimal grammar, and failure is NaN.  (Double rounding of the exact
decimal value is not modelled; no claim depends on it.) -/
def jsNumberOfString (s : String) : JSNum :=
  let t := jsTrim s
  if t = "" then .fin 0
  else if t = "Infinity" ∨ t = "+Infinity" then .posInf
  else if t = "-Infinity" then .negInf
  else
    let radix : Option (Option ℚ) :=
      match t.data with
      | '0' :: x :: rest =>
        if x == 'x' || x == 'X' then
          some (parseRadixDigits isHexDigitChar (fun c => (hexVal c).getD 0) 16 rest)
        else if x == 'o' || x == 'O' then
          some (parseRadixDigits (fun c => 48 ≤ c.toNat && c.toNat ≤ 55) (fun c => c.toNat - 48) 8 rest)
        else if x == 'b' || x == 'B' then
          some (parseRadixDigits (fun c => c == '0' || c == '1') (fun c => c.toNat - 48) 2 rest)
        else none
      | _ => none
    match radix with
    | some (some q) => .fin q
    | some none => .nan
    | none =>
      match parseDecimal t.data with
      | some q => .fin q
      | none => .nan

/-- coerceNumber from api/types.ts: a finite number is kept, a string is
passed through Number() and kept when finite, everything else is
undefined. -/
def coerceNumber (v : JsValue) : Option ℚ :=
  match v with
  | .vNum (.fin q) => some q
  | .vNum _ => none
  | .vStr s =>
    match jsNumberOfString s with
    | .fin q => some q
    | _ => none
  | _ => none

def natDigitsRev (fuel : Nat) (n : Nat) : List Char :=
  match fuel with
  | 0 => []
  | fuel' + 1 =>
    if n < 10 then [Char.ofNat (48 + n)]
    else Char.ofNat (48 + n % 10) :: natDigitsRev fuel' (n / 10)

def natToString (n : Nat) : String :=
  ⟨(natDigitsRev (n + 1) n).reverse⟩

def intToString (i : ℤ) : String :=
  if i < 0 then "-" ++ natToString i.natAbs else natToString i.natAbs

/-- Decimal expansion of a proper fraction, up to the given number of
digits. -/
def fracDigits (fuel : Nat) (num den : Nat) : List Char :=
  match fuel with
  | 0 => []
  | fuel' + 1 =>
    if num = 0 then []
    else Char.ofNat (48 + num * 10 / den) :: fracDigits fuel' (num * 10 % den) den

/-- JavaScript number-to-string conversion.  Exact for NaN, the
infinities and integers; for non-integer values the decimal expansion is
truncated to twenty digits (the shortest-round-trip rule of JavaScript
is abstracted away; no claim reads the text of a non-integer number). -/
def jsNumToString (n : JSNum) : String :=
  match n with
  | .nan => "NaN"
  | .posInf => "Infinity"
  | .negInf => "-Infinity"
  | .fin q =>
    if q.den = 1 then intToString q.num
    else
      (if q < 0 then "-" else "")
        ++ natToString (q.num.natAbs / q.den) ++ "."
        ++ ⟨fracDigits 20 (q.num.natAbs % q.den) q.den⟩

def joinComma : List String → String
  | [] => ""
  | [x] => x
  | x :: rest => x ++ "," ++ joinComma rest

/-- Fuel-indexed ToString as applied by String(value); the fuel only
bounds the recursion depth through nested arrays, whose elements join
with commas and whose null and undefined elements become empty strings,
as Array.prototype.toString does. -/
def jsToStringF : Nat → JsValue → String
  | _, .vNull => "null"
  | _, .vUndefined => "undefined"
  | _, .vBool true => "true"
  | _, .vBool false => "false"
  | _, .vNum n => jsNumToString n
  | _, .vStr s => s
  | 0, .vArr _ => ""
  | fuel + 1, .vArr xs =>
    joinComma (xs.map (fun x =>
      match x with
      | .vNull => ""
      | .vUndefined => ""
      | v => jsToStringF fuel v))
  | _, .vObj _ => "[object Object]"

/-! ## JSON.parse -/

def skipJsonWs (l : List Char) : List Char :=
  l.dropWhile (fun c => c == ' ' || c == '\t' || c == '\n' || c == '\r')

/-- The body of a JSON string after the opening quote: the decoded
characters and the input after the closing quote. -/
def jsonStringChars : Nat → List Char → Option (List Char × List Char)
  | 0, _ => none
  | fuel + 1, l =>
    match l with
    | [] => none
    | '"' :: rest => some ([], rest)
    | '\\' :: e :: rest =>
      match (match e with
             | '"' => some '"'
             | '\\' => some '\\'
             | '/' => some '/'
             | 'b' => some (Char.ofNat 8)
             | 'f' => some (Char.ofNat 12)
             | 'n' => some '\n'
             | 'r' => some '\r'
             | 't' => some '\t'
             | _ => none) with
      | some ch => (jsonStringChars fuel rest).map (fun p => (ch :: p.1, p.2))
      | none =>
        if e == 'u' then
          match rest with
          | a :: b :: c :: d :: rest2 =>
            match hexVal a, hexVal b, hexVal c, hexVal d with
            | some x1, some x2, some x3, some x4 =>
              (jsonStringChars fuel rest2).map
                (fun p => (Char.ofNat (((x1 * 16 + x2) * 16 + x3) * 16 + x4) :: p.1, p.2))
            | _, _, _, _ => none
          | _ => none
        else none
    | c :: rest =>
      if c.toNat < 32 then none
      else (jsonStringChars fuel rest).map (fun p => (c :: p.1, p.2))

/-- A JSON number literal: optional minus, an integer part without
leading zeros, an optional fraction, an optional exponent. -/
def jsonNumber (l : List Char) : Option (ℚ × List Char) :=
  let signed : Bool × List Char :=
    match l with
    | '-' :: r => (true, r)
    | _ => (false, l)
  let intState : Option (List Char × List Char) :=
    match signed.2 with
    | '0' :: r => some (['0'], r)
    | c :: r =>
      if 49 ≤ c.toNat && c.toNat ≤ 57 then
        some (c :: r.takeWhile isDigitChar, r.drop (r.takeWhile isDigitChar).length)
      else none
    | [] => none
  match intState with
  | none => none
  | some (intDigits, afterInt) =>
    let fracState : Option (List Char × List Char) :=
      match afterInt with
      | '.' :: r =>
        let ds := r.takeWhile isDigitChar
        if ds = [] then none else some (ds, r.drop ds.length)
      | _ => some ([], afterInt)
    match fracState with
    | none => none
    | some (fracDs, afterFrac) =>
      let expState : Option (Bool × List Char × List Char) :=
        match afterFrac with
        | e :: r =>
          if e == 'e' || e == 'E' then
            let esigned : Bool × List Char :=
              match r with
              | '-' :: rr => (true, rr)
              | '+' :: rr => (false, rr)
              | _ => (false, r)
            let ds := esigned.2.takeWhile isDigitChar
            if ds = [] then none
            else some (esigned.1, ds, esigned.2.drop ds.length)
          else some (false, ['0'], afterFrac)
        | [] => some (false, ['0'], [])
      match expState with
      | none => none
      | some (eneg, eDigits, rest) =>
        let mant : ℚ :=
          (digitsToNat intDigits : ℚ) + (digitsToNat fracDs : ℚ) / ((10 : ℚ) ^ fracDs.length)
        let factor : ℚ := (10 : ℚ) ^ (digitsToNat eDigits)
        let value := (if signed.1 then -mant else mant) * (if eneg then factor⁻¹ else factor)
        some (value, rest)

mutual

def jsonValue : Nat → List Char → Option (JsValue × List Char)
  | 0, _ => none
  | fuel + 1, l =>
    match skipJsonWs l with
    | [] => none
    | c :: rest =>
      if c == 'n' then
        if rest.take 3 = ['u', 'l', 'l'] then some (.vNull, rest.drop 3) else none
      else if c == 't' then
        if rest.take 3 = ['r', 'u', 'e'] then some (.vBool true, rest.drop 3) else none
      else if c == 'f' then
        if rest.take 4 = ['a', 'l', 's', 'e'] then some (.vBool false, rest.drop 4) else none
      else if c == '"' then
        (jsonStringChars (fuel + 1) rest).map (fun p => (.vStr ⟨p.1⟩, p.2))
      else if c == '[' then
        match skipJsonWs rest with
        | ']' :: r2 => some (.vArr [], r2)
        | _ => (jsonArrayItems fuel rest).map (fun p => (.vArr p.1, p.2))
      else if c == '{' then
        match skipJsonWs rest with
        | '}' :: r2 => some (.vObj [], r2)
        | _ => (jsonObjectItems fuel rest).map (fun p => (.vObj p.1, p.2))
      else
        (jsonNumber (c :: rest)).map (fun p => (.vNum (.fin p.1), p.2))

/-- One or more comma-separated array elements followed by the closing
bracket. -/
def jsonArrayItems : Nat → List Char → Option (List JsValue × List Char)
  | 0, _ => none
  | fuel + 1, l =>
    match jsonValue fuel l with
    | none => none
    | some (v, rest) =>
      match skipJsonWs rest with
      | ',' :: r2 => (jsonArrayItems fuel r2).map (fun p => (v :: p.1, p.2))
      | ']' :: r2 => some ([v], r2)
      | _ => none

/-- One or more comma-separated key-value members followed by the
closing brace. -/
def jsonObjectItems : Nat → List Char → Option (List (String × JsValue) × List Char)
  | 0, _ => none
  | fuel + 1, l =>
    match skipJsonWs l with
    | '"' :: r1 =>
      match jsonStringChars (fuel + 1) r1 with
      | none => none
      | some (key, r2) =>
        match skipJsonWs r2 with
        | ':' :: r3 =>
          match jsonValue fuel r3 with
          | none => none
          | some (v, r4) =>
            match skipJsonWs r4 with
            | ',' :: r5 => (jsonObjectItems fuel r5).map (fun p => ((⟨key⟩, v) :: p.1, p.2))
            | '}' :: r5 => some ([(⟨key⟩, v)], r5)
            | _ => none
        | _ => none
    | _ => none

end

/-- JSON.parse returning the parsed value, or failure (the thrown
SyntaxError) as none. -/
def jsonParse (s : String) : Option JsValue :=
  match jsonValue (s.data.length + 1) s.data with
  | some (v, rest) => if skipJsonWs rest = [] then some v else none
  | none => none

/-! ## src/lib/site.ts -/

/-- The parsed URL components read by site.ts.  The hash field holds the
fragment without its number sign; the empty string stands for an absent
or empty fragment, matching the truthiness test the code performs. -/
structure ParsedUrl where
  protocol : String
  hostname : String
  pathname : String
  searchParams : List (String × String)
  hash : String
deriving DecidableEq, Repr

/-- The site configuration resolved by resolveSiteConfig: the hostname of
the configured site URL and its normalized base pathname.  The base URL
string is derived below as in normalizeSiteUrl. -/
structure SiteConfig where
  hostname : String
  basePathname : String
deriving DecidableEq, Repr

/-- The configuration obtained from DEFAULT_SITE_URL
('https://wiedza.joga.yoga', pathname '/'). -/
def defaultSiteConfig : SiteConfig :=
  { hostname := "wiedza.joga.yoga", basePathname := "/" }

/-- normalizeSiteUrl: the base URL is the origin followed by the base
pathname unless that is the root. -/
def siteBaseUrl (cfg : SiteConfig) : String :=
  "https://" ++ cfg.hostname ++ (if cfg.basePathname = "/" then "" else cfg.basePathname)

/-- isAllowedCanonicalSearchParam from site.ts. -/
def isAllowedCanonicalSearchParam (key : String) : Bool :=
  key == "page"

/-- The regex from site.ts accepting a positive decimal integer without
leading zeros. -/
def isPositiveIntegerString (s : String) : Bool :=
  match s.data with
  | [] => false
  | c :: cs =>
    ('1'.toNat ≤ c.toNat && c.toNat ≤ '9'.toNat)
      && cs.all (fun d => '0'.toNat ≤ d.toNat && d.toNat ≤ '9'.toNat)

/-- The pathname rewrite at the end of assertValidCanonical: a path equal
to the root or to the base pathname followed by a slash is kept, any
other path loses its trailing slashes (the root when nothing remains). -/
def normalizeCanonicalPath (cfg : SiteConfig) (p : String) : String :=
  if p = "/" ∨ p = cfg.basePathname ++ "/" then p
  else
    let q := stripTrailingSlashes p
    if q = "" then "/" else q

/-- assertValidCanonical from site.ts over a parsed URL.  A string input
that does not parse as a URL at all is rejected by the constructor before
any of these checks; every parseable input is represented by a ParsedUrl. -/
def assertValidCanonical (cfg : SiteConfig) (url : ParsedUrl) : Except String ParsedUrl :=
  if url.protocol != "https:" then
    .error "Canonical URL must use https."
  else if !(jsEndsWith url.hostname cfg.hostname) then
    .error "Canonical URL must remain on the configured hostname."
  else if url.hash != "" then
    .error "Canonical URL must not contain hash fragments."
  else if url.searchParams.any (fun p => !(isAllowedCanonicalSearchParam p.1)) then
    .error "Canonical URL contains an unsupported query parameter."
  else if (match getParam url.searchParams "page" with
           | some v => v != "" && !(isPositiveIntegerString v)
           | none => false) then
    .error "Canonical page query parameter must be a positive integer."
  else
    .ok { url with pathname := normalizeCanonicalPath cfg url.pathname }

/-- buildCanonicalInternal from site.ts: normalize the requested path,
append it to the base URL, let the URL constructor cut fragment and query
out of the appended text, optionally overwrite the query with the given
search parameters, and validate. -/
def buildCanonicalInternal (cfg : SiteConfig) (pathname : String)
    (searchParams : Option (List (String × String))) : Except String ParsedUrl :=
  let normalizedPath := if jsStartsWith pathname "/" then pathname else "/" ++ pathname
  let trimmedPath := if normalizedPath = "/" then "/" else stripTrailingSlashes normalizedPath
  let appended := if trimmedPath = "/" then "/" else trimmedPath
  let cutHash := splitAtFirst appended '#'
  let cutQuery := splitAtFirst cutHash.1 '?'
  let fullPath := (if cfg.basePathname = "/" then "" else cfg.basePathname) ++ cutQuery.1
  let path := if fullPath = "" then "/" else fullPath
  let u : ParsedUrl :=
    { protocol := "https:", hostname := cfg.hostname, pathname := path
      searchParams := parseQuery cutQuery.2, hash := cutHash.2 }
  let u2 := match searchParams with
    | some ps => { u with searchParams := ps }
    | none => u
  assertValidCanonical cfg u2

/-- The search argument of buildCanonicalUrl: a string, a URLSearchParams
value, or nothing (null and undefined behave identically there). -/
inductive SearchInput where
  | absent : SearchInput
  | str : String → SearchInput
  | params : List (String × String) → SearchInput
deriving DecidableEq, Repr

/-- The parameter filtering inside buildCanonicalUrl: keep only a page
parameter whose first value is a non-empty positive integer string
different from the string 1. -/
def filterCanonicalParams (ps : List (String × String)) : List (String × String) :=
  match getParam ps "page" with
  | some v => if v != "" && v != "1" && isPositiveIntegerString v then [("page", v)] else []
  | none => []

/-- buildCanonicalUrl from site.ts: materialize the search argument,
filter its parameters, and delegate. -/
def buildCanonicalUrl (cfg : SiteConfig) (pathname : String) (search : SearchInput) :
    Except String ParsedUrl :=
  let params? : Option (List (String × String)) :=
    match search with
    | .absent => none
    | .str s => some (parseSearchString s)
    | .params ps => some ps
  buildCanonicalInternal cfg pathname (params?.map filterCanonicalParams)

/-! ## src/lib/api/types.ts -/

/-- z.array(itemSchema).safeParse: succeeds exactly on an array whose
every element the item schema accepts, returning the parsed elements. -/
def zodListParse {T : Type} (item : JsValue → Option T) : List JsValue → Option (List T)
  | [] => some []
  | x :: xs =>
    match item x, zodListParse item xs with
    | some y, some ys => some (y :: ys)
    | _, _ => none

def zodArrayParse {T : Type} (item : JsValue → Option T) : JsValue → Option (List T)
  | .vArr xs => zodListParse item xs
  | _ => none

/-- tagsValueSchema from api/types.ts: the union accepts an array of
strings, a string, null or undefined, and the transform normalizes the
value to a list of trimmed non-empty strings (a string is first tried as
JSON, and an array result is mapped through String(tag); otherwise the
string is split on commas). -/
def zodStringParse : JsValue → Option String
  | .vStr s => some s
  | _ => none

def tagsValueParse (v : JsValue) : Option (List String) :=
  match v with
  | .vArr xs =>
    (zodListParse zodStringParse xs).map
      (fun l => (l.map jsTrim).filter (fun s => s != ""))
  | .vStr s =>
    some (match jsonParse s with
      | some (.vArr parsed) =>
        (parsed.map (fun t => jsTrim (jsToStringF (s.data.length + 1) t))).filter
          (fun x => x != "")
      | _ =>
        ((splitOnChar s.data ',').map (fun piece => jsTrim ⟨piece⟩)).filter
          (fun x => x != ""))
  | .vNull => some []
  | .vUndefined => some []
  | _ => none

/-- sectionValueSchema from api/types.ts: a string with non-blank trim
becomes its trim, anything else accepted by the union becomes null. -/
def sectionValueParse (v : JsValue) : Option (Option String) :=
  match v with
  | .vStr s => some (if (jsTrim s).length > 0 then some (jsTrim s) else none)
  | .vNull => some none
  | .vUndefined => some none
  | _ => none

/-- The tags field of articleSummarySchema: tagsValueSchema with the
zod default of the empty array for an undefined or absent input. -/
def tagsFieldParse (v : JsValue) : Option (List String) :=
  match v with
  | .vUndefined => some []
  | _ => tagsValueParse v

/-- The section field of articleSummarySchema: sectionValueSchema with
the zod default null for an undefined or absent input. -/
def sectionFieldParse (v : JsValue) : Option (Option String) :=
  match v with
  | .vUndefined => some none
  | _ => sectionValueParse v

structure ArticleSummary where
  slug : String
  title : String
  «section» : Option String
  tags : List String
  created_at : String
  updated_at : String
deriving DecidableEq, Repr

/-- articleSummarySchema from api/types.ts (the final transform
replacing a nullish tags value by the empty list is the identity here,
since the tags field never parses to a nullish value). -/
def articleSummaryParse (v : JsValue) : Option ArticleSummary :=
  match v with
  | .vObj _ =>
    match jsGet v "slug", jsGet v "title", jsGet v "created_at", jsGet v "updated_at" with
    | .vStr slug, .vStr title, .vStr created, .vStr updated =>
      match sectionFieldParse (jsGet v "section"), tagsFieldParse (jsGet v "tags") with
      | some sec, some tags => some ⟨slug, title, sec, tags, created, updated⟩
      | _, _ => none
    | _, _, _, _ => none
  | _ => none

/-- The paged shape produced by toPaged; its five fields are exactly the
fields of the returned record. -/
structure Paged (T : Type) where
  items : List T
  total : ℚ
  page : ℚ
  page_size : ℚ
  total_pages : ℚ
deriving DecidableEq

/-- emptyPaged from api/types.ts. -/
def emptyPaged {T : Type} : Paged T :=
  { items := [], total := 0, page := 1, page_size := 0, total_pages := 0 }

/-- The five meta values consulted by resolveFromItems; in the object
branch each is the record field coalesced with the meta field, exactly
the keys the spread in toPaged overrides. -/
structure MetaFields where
  total : JsValue
  total_items : JsValue
  page_size : JsValue
  per_page : JsValue
  total_pages : JsValue

def undefMeta : MetaFields :=
  { total := .vUndefined, total_items := .vUndefined, page_size := .vUndefined
    per_page := .vUndefined, total_pages := .vUndefined }

/-- parseItems inside toPaged: undefined becomes the empty list, a
failed array parse logs and becomes the empty list. -/
def parseItems {T : Type} (item : JsValue → Option T) (v : JsValue) : List T :=
  match v with
  | .vUndefined => []
  | _ => (zodArrayParse item v).getD []

/-- resolveFromItems inside toPaged. -/
def resolveFromItems {T : Type} (item : JsValue → Option T) (itemsSource : JsValue)
    (ms : MetaFields) : List T × ℚ × ℚ × ℚ :=
  let items := parseItems item itemsSource
  let total :=
    ((coerceNumber ms.total).orElse (fun _ => coerceNumber ms.total_items)).getD
      (items.length : ℚ)
  let resolvedPageSize :=
    ((coerceNumber ms.page_size).orElse (fun _ => coerceNumber ms.per_page)).getD
      (if items.length > 0 then (items.length : ℚ) else 0)
  let totalPages :=
    (coerceNumber ms.total_pages).getD
      (if resolvedPageSize > 0 then ((max 1 ⌈total / resolvedPageSize⌉ : ℤ) : ℚ)
       else if total > 0 then 1 else 0)
  (items, total, resolvedPageSize, totalPages)

/-- The items source selected by the object branch of toPaged: the items
key when present, else the results key when present, else the data key
when it is an array. -/
def itemsSourceOf (data : JsValue) : JsValue :=
  match data with
  | .vArr xs => .vArr xs
  | .vObj fields =>
    if hasOwnKey fields "items" then jsGet (.vObj fields) "items"
    else if hasOwnKey fields "results" then jsGet (.vObj fields) "results"
    else
      match jsGet (.vObj fields) "data" with
      | .vArr ds => .vArr ds
      | _ => .vUndefined
  | _ => .vUndefined

/-- toPaged from api/types.ts. -/
def toPaged {T : Type} (data : JsValue) (item : JsValue → Option T) : Paged T :=
  match data with
  | .vArr xs =>
    let r := resolveFromItems item (.vArr xs) undefMeta
    { items := r.1, total := r.2.1, page := 1, page_size := r.2.2.1, total_pages := r.2.2.2 }
  | .vObj fields =>
    let record := JsValue.vObj fields
    let meta : JsValue :=
      match jsGet record "meta" with
      | .vObj mf => .vObj mf
      | .vArr ma => .vArr ma
      | _ => .vUndefined
    let ms : MetaFields :=
      { total := jsCoalesce (jsGet record "total") (jsGet meta "total")
        total_items := jsCoalesce (jsGet record "total_items") (jsGet meta "total_items")
        page_size := jsCoalesce (jsGet record "page_size") (jsGet meta "page_size")
        per_page := jsCoalesce (jsGet record "per_page") (jsGet meta "per_page")
        total_pages := jsCoalesce (jsGet record "total_pages") (jsGet meta "total_pages") }
    let r := resolveFromItems item (itemsSourceOf data) ms
    let page :=
      (((coerceNumber (jsGet record "page")).orElse
          (fun _ => coerceNumber (jsGet record "current_page"))).orElse
        (fun _ => coerceNumber (jsGet meta "page"))).getD 1
    let resolvedPageSize :=
      ((((coerceNumber (jsGet record "page_size")).orElse
            (fun _ => coerceNumber (jsGet record "per_page"))).orElse
          (fun _ => coerceNumber (jsGet meta "page_size"))).orElse
        (fun _ => coerceNumber (jsGet meta "per_page"))).getD r.2.2.1
    let resolvedTotal :=
      (((((coerceNumber (jsGet record "total")).orElse
            (fun _ => coerceNumber (jsGet record "total_items"))).orElse
          (fun _ => coerceNumber (jsGet meta "total"))).orElse
        (fun _ => coerceNumber (jsGet meta "total_items")))).getD r.2.1
    let resolvedTotalPages :=
      ((coerceNumber (jsGet record "total_pages")).orElse
        (fun _ => coerceNumber (jsGet meta "total_pages"))).getD
        (if resolvedPageSize > 0 then ((max 1 ⌈resolvedTotal / resolvedPageSize⌉ : ℤ) : ℚ)
         else if resolvedTotal > 0 then 1 else 0)
    { items := r.1, total := resolvedTotal, page := page
      page_size := resolvedPageSize, total_pages := resolvedTotalPages }
  | _ => emptyPaged

def isJsArray (v : JsValue) : Bool :=
  match v with
  | .vArr _ => true
  | _ => false

def isJsObject (v : JsValue) : Bool :=
  match v with
  | .vObj _ => true
  | _ => false

/-! ## src/lib/api/client.ts -/

def MAX_PER_PAGE : ℤ := 50

def MIN_PER_PAGE : ℤ := 1

/-- The data of the ApiError class hierarchy that the claims inspect:
the subclass (as its name field) and the HTTP status it carries. -/
structure ApiErrorData where
  name : String
  status : Nat
deriving DecidableEq, Repr

/-- The outcome of the fetch call inside apiFetch: a network-level
failure (fetch rejected), or a response with its HTTP status and the
payload resolved from the body (null when body reading failed). -/
inductive FetchOutcome where
  | failure : FetchOutcome
  | success : Nat → JsValue → FetchOutcome

/-- Response.ok per the Fetch specification: status in the inclusive
range 200 to 299. -/
def responseOk (status : Nat) : Bool :=
  200 ≤ status && status ≤ 299

/-- The error classification and return of apiFetch from api/client.ts:
non-ok responses throw NotFoundError on 404, ServiceUnavailableError on
502 and 503, and a plain ApiError otherwise; an ok response returns the
payload (null when it was nullish); a failed fetch throws NetworkError
with status 0 (an ApiError thrown inside the try block is re-thrown
unchanged by the catch). -/
def apiFetchClassify : FetchOutcome → Except ApiErrorData JsValue
  | .failure => .error { name := "NetworkError", status := 0 }
  | .success status payload =>
    if !(responseOk status) then
      if status = 404 then .error { name := "NotFoundError", status := 404 }
      else if status = 502 ∨ status = 503 then
        .error { name := "ServiceUnavailableError", status := status }
      else .error { name := "ApiError", status := status }
    else .ok (jsCoalesce payload .vNull)

def errName : Except ApiErrorData JsValue → Option String
  | .error e => some e.name
  | .ok _ => none

/-- The ArticleListQuery type: each field optional, the numeric fields
JavaScript numbers. -/
structure ArticleListQuery where
  page : Option JSNum
  per_page : Option JSNum
  «section» : Option String
  q : Option String

/-- serializeArticleListQuery from api/client.ts; the textual form of a
page number is exact for every magnitude below 2 to the 53 (JavaScript
switches to exponent notation only beyond 1e21, which no claim
exercises). -/
def serializeArticleListQuery (query : ArticleListQuery) : List (String × String) :=
  (match query.page with
   | some (.fin x) => if 1 ≤ x then [("page", intToString ⌊x⌋)] else []
   | _ => []) ++
  (match query.per_page with
   | some (.fin x) => [("per_page", intToString (min (max ⌊x⌋ MIN_PER_PAGE) MAX_PER_PAGE))]
   | _ => []) ++
  (match query.«section» with
   | some s => if s != "" && jsTrim s != "" then [("section", jsTrim s)] else []
   | none => []) ++
  (match query.q with
   | some s => if s != "" && jsTrim s != "" then [("q", jsTrim s)] else []
   | none => [])

/-- The ArticleCreateRequest payload. -/
structure ArticleCreateRequest where
  topic : String
  rubric_code : Option String
  keywords : List String
  guidance : Option String
deriving DecidableEq, Repr

/-- articleCreateRequestSchema from api/types.ts: topic between 5 and
200 characters, at most 6 keywords, guidance at most 500 characters when
present.  (zod measures string length in UTF-16 units; Lean counts code
points; the two agree on every string without astral characters and no
claim distinguishes them.) -/
def articleCreateRequestValid (p : ArticleCreateRequest) : Bool :=
  decide (5 ≤ p.topic.length) && decide (p.topic.length ≤ 200)
    && decide (p.keywords.length ≤ 6)
    && (match p.guidance with
        | some g => decide (g.length ≤ 500)
        | none => true)

structure HttpRequest where
  method : String
  path : String
deriving DecidableEq, Repr

/-- The observable result of createArticle: the thrown ZodError when
validation fails, the ApiError propagated from apiFetch, or the payload
handed on to the publish-response schema (whose own parse issues no
further request). -/
inductive CreateResult where
  | validationError : CreateResult
  | apiError : ApiErrorData → CreateResult
  | published : JsValue → CreateResult

/-- createArticle from api/client.ts, with the list of HTTP requests it
issues: the schema parse throws before any request on an invalid
payload, and otherwise exactly one POST to /articles is made whatever
the outcome (there is no retry). -/
def createArticle (p : ArticleCreateRequest) (outcome : FetchOutcome) :
    List HttpRequest × CreateResult :=
  if articleCreateRequestValid p then
    match apiFetchClassify outcome with
    | .error e => ([{ method := "POST", path := "/articles" }], .apiError e)
    | .ok data => ([{ method := "POST", path := "/articles" }], .published data)
  else ([], .validationError)

/-! ## src/lib/safeFetch.ts -/

/-- What the fetch inside safeFetch can observe: a rejected fetch, or a
response with its ok flag and the result of parsing its body as JSON
(none when res.json() rejects). -/
inductive SafeFetchOutcome where
  | networkFailure : SafeFetchOutcome
  | response : Bool → Option JsValue → SafeFetchOutcome

/-- safeFetch from safeFetch.ts: a non-ok status throws into the local
catch, as do a network failure and a body that fails to parse; every
failure path returns null. -/
def safeFetch : SafeFetchOutcome → Option JsValue
  | .networkFailure => none
  | .response ok json => if ok then json else none

/-! ## src/lib/citations.ts -/

def asciiLower (c : Char) : Char :=
  if 65 ≤ c.toNat ∧ c.toNat ≤ 90 then Char.ofNat (c.toNat + 32) else c

def startsWithCI (l : List Char) (p : String) : Bool :=
  List.isPrefixOf p.data (l.map asciiLower)

/-- The hostname part of a URL authority: userinfo before a commercial
at is dropped, a port after a colon is dropped. -/
def hostnameOfAuthority (auth : List Char) : String :=
  let afterAt :=
    match (splitOnChar auth '@').reverse with
    | last :: _ => last
    | [] => auth
  ⟨afterAt.takeWhile (· != ':')⟩

/-- Hostname and pathname of the text after the double slash of an
http or https URL; an empty hostname is the constructor throwing. -/
def parseHostPath (rest : List Char) : Option (String × String) :=
  let auth := rest.takeWhile (fun c => c != '/' && c != '?' && c != '#')
  let after := rest.drop auth.length
  let path := after.takeWhile (fun c => c != '?' && c != '#')
  let host := hostnameOfAuthority auth
  if host = "" then none
  else some (host, if path = [] then "/" else ⟨path⟩)

def isAsciiLetter (c : Char) : Bool :=
  (65 ≤ c.toNat && c.toNat ≤ 90) || (97 ≤ c.toNat && c.toNat ≤ 122)

def isSchemeChar (c : Char) : Bool :=
  isAsciiLetter c || isDigitChar c || c == '+' || c == '-' || c == '.'

/-- Whether the text begins with a URL scheme followed by a colon. -/
def hasScheme (l : List Char) : Bool :=
  match l with
  | c :: rest =>
    isAsciiLetter c &&
      (match rest.drop (rest.takeWhile isSchemeChar).length with
       | ':' :: _ => true
       | _ => false)
  | [] => false

/-- new URL(value, base) restricted to what citations.ts reads (hostname
and pathname), at the default site configuration whose base is the
origin https://wiedza.joga.yoga with root path: absolute http and https
URLs parse on their own, protocol-relative and host-relative references
resolve against the base host, another scheme yields an opaque path with
an empty hostname, and a bare relative reference resolves under the root
path.  Dot-segment normalization and percent-encoding are not exercised
by any claim and are omitted. -/
def resolveUrlModel (value : String) (baseHost : String) : Option (String × String) :=
  let l := value.data
  if startsWithCI l "https://" then parseHostPath (l.drop 8)
  else if startsWithCI l "http://" then parseHostPath (l.drop 7)
  else
    match l with
    | '/' :: '/' :: rest => parseHostPath rest
    | '/' :: _ => some (baseHost, ⟨l.takeWhile (fun c => c != '?' && c != '#')⟩)
    | _ =>
      if hasScheme l then
        some ("", ⟨((l.dropWhile (· != ':')).drop 1).takeWhile (fun c => c != '?' && c != '#')⟩)
      else some (baseHost, "/" ++ ⟨l.takeWhile (fun c => c != '?' && c != '#')⟩)

/-- new URL(value).hostname without a base, as used for the external
label fallback; the call site has already checked isHttpUrl, so only
http and https inputs occur there and anything else throws (none). -/
def absoluteHostname (value : String) : Option String :=
  if startsWithCI value.data "https://" then (parseHostPath (value.data.drop 8)).map (·.1)
  else if startsWithCI value.data "http://" then (parseHostPath (value.data.drop 7)).map (·.1)
  else none

/-- getSiteBaseUrl().hostname wrapped in the try of citations.ts. -/
def siteHostname : Option String :=
  (resolveUrlModel (siteBaseUrl defaultSiteConfig) "").map (·.1)

/-- resolveInternalSlug from citations.ts: the last non-empty path
segment of the URL resolved against the site base. -/
def resolveInternalSlug (value : String) : Option String :=
  match resolveUrlModel value defaultSiteConfig.hostname with
  | none => none
  | some r =>
    match (((splitOnChar r.2.data '/').map (fun seg => (⟨seg⟩ : String))).filter
        (fun s => s != "")).reverse with
    | [] => none
    | last :: _ => some last

/-- isHttpUrl from citations.ts (the case-insensitive regex anchored at
the start accepting http: or https:). -/
def isHttpUrl (value : String) : Bool :=
  startsWithCI value.data "http:" || startsWithCI value.data "https:"

structure ExtractedCitation where
  url : String
  label : String
deriving DecidableEq, Repr

/-- The InternalRecommendation shape from article-references (only the
fields citations.ts writes; lead and section are set to undefined
there). -/
structure InternalRecommendation where
  slug : String
  title : String
  lead : Option String
  «section» : Option String
deriving DecidableEq, Repr

/-- toArray from citations.ts. -/
def toArray (v : JsValue) : List JsValue :=
  match v with
  | .vArr xs => xs
  | .vObj _ =>
    match jsGet v "items" with
    | .vArr xs => xs
    | _ =>
      match jsGet v "data" with
      | .vArr xs => xs
      | _ => []
  | _ => []

/-- normalizeCitation from citations.ts. -/
def normalizeCitation (entry : JsValue) : Option ExtractedCitation :=
  if !(jsTruthy entry) then none
  else
    match entry with
    | .vStr s =>
      let url := jsTrim s
      if url = "" then none else some { url := url, label := url }
    | .vObj _ | .vArr _ =>
      let rawUrl := jsCoalesce (jsGet entry "url") (jsGet entry "href")
      let url := match rawUrl with | .vStr u => jsTrim u | _ => ""
      let labelCandidate :=
        jsCoalesce (jsGet entry "label")
          (jsCoalesce (jsGet entry "title")
            (jsCoalesce (jsGet entry "name")
              (jsCoalesce (jsGet entry "description") (.vStr url))))
      let label :=
        match labelCandidate with
        | .vStr lc => if jsTrim lc != "" then jsTrim lc else url
        | _ => url
      if url = "" then none else some { url := url, label := label }
    | _ => none

/-- The seven optionally-chained citation sources of
extractExternalCitations, flattened through toArray and
normalizeCitation and filtered to the non-null results. -/
def collectedCitations (payload : JsValue) : List ExtractedCitation :=
  let candidates : List JsValue :=
    [jsGet payload "citations",
     jsGet (jsGet payload "article") "citations",
     jsGet (jsGet payload "post") "citations",
     jsGet (jsGet payload "payload") "citations",
     jsGet (jsGet (jsGet payload "payload") "article") "citations",
     jsGet (jsGet (jsGet payload "post") "payload") "citations",
     jsGet (jsGet (jsGet (jsGet payload "post") "payload") "article") "citations"]
  ((candidates.map (fun v => (toArray v).map normalizeCitation)).flatten).filterMap id

/-- What the loop body of extractExternalCitations decides for one
collected entry, independent of the two maps: skip it, record an
internal recommendation under a slug, or record an external citation
under its url. -/
inductive CitationAction where
  | skip : CitationAction
  | internal : String → InternalRecommendation → CitationAction
  | external : String → ExtractedCitation → CitationAction

/-- The loop body of extractExternalCitations from citations.ts. -/
def citationAction (entry : ExtractedCitation) : CitationAction :=
  let normalizedUrl := jsTrim entry.url
  let label := jsTrim entry.label
  if normalizedUrl = "" then .skip
  else
    let slug := resolveInternalSlug normalizedUrl
    let parsedHostname := (resolveUrlModel normalizedUrl defaultSiteConfig.hostname).map (·.1)
    let isInternal :=
      slug.isSome && siteHostname.isSome && (parsedHostname == siteHostname)
    if isInternal then
      match slug with
      | some sl =>
        .internal sl
          { slug := sl, title := if label != "" then label else sl
            lead := none, «section» := none }
      | none => .skip
    else if !(isHttpUrl normalizedUrl) then .skip
    else if label != "" && label != normalizedUrl then
      .external normalizedUrl { url := normalizedUrl, label := label }
    else
      match absoluteHostname normalizedUrl with
      | some h => .external normalizedUrl { url := normalizedUrl, label := h }
      | none => .external normalizedUrl { url := normalizedUrl, label := normalizedUrl }

/-- Map.set guarded by Map.has: a key already present keeps its value,
a new key is appended (JavaScript Map preserves insertion order). -/
def insertIfAbsent {V : Type} (m : List (String × V)) (k : String) (v : V) :
    List (String × V) :=
  if (m.find? (fun p => p.1 == k)).isSome then m else m ++ [(k, v)]

/-- The forEach of extractExternalCitations over the collected entries,
threading the two insertion-ordered maps. -/
def citationFold : List ExtractedCitation → List (String × ExtractedCitation) →
    List (String × InternalRecommendation) →
    List (String × ExtractedCitation) × List (String × InternalRecommendation)
  | [], ext, intl => (ext, intl)
  | e :: rest, ext, intl =>
    match citationAction e with
    | .skip => citationFold rest ext intl
    | .internal k v => citationFold rest ext (insertIfAbsent intl k v)
    | .external k v => citationFold rest (insertIfAbsent ext k v) intl

structure ExtractCitationsResult where
  externalCitations : List ExtractedCitation
  internalRecommendations : List InternalRecommendation
deriving DecidableEq, Repr

/-- extractExternalCitations from citations.ts: run the loop and return
the values of the two maps in insertion order. -/
def extractExternalCitations (payload : JsValue) : ExtractCitationsResult :=
  let r := citationFold (collectedCitations payload) [] []
  { externalCitations := r.1.map (·.2)
    internalRecommendations := r.2.map (·.2) }

/-- The external-map insertions the collected entries would attempt, in
order: used to state that the first occurrence of a url wins. -/
def externalInserts (entries : List ExtractedCitation) :
    List (String × ExtractedCitation) :=
  entries.filterMap (fun e =>
    match citationAction e with
    | .external k v => some (k, v)
    | _ => none)

/-- The internal-map insertions the collected entries would attempt, in
order. -/
def internalInserts (entries : List ExtractedCitation) :
    List (String × InternalRecommendation) :=
  entries.filterMap (fun e =>
    match citationAction e with
    | .internal k v => some (k, v)
    | _ => none)

/-- Folding insertIfAbsent over a list of attempted insertions. -/
def insertAll {V : Type} (m : List (String × V)) : List (String × V) → List (String × V)
  | [] => m
  | (k, v) :: rest => insertAll (insertIfAbsent m k v) rest

/-! ## Lemmas about trailing-slash stripping and canonical paths -/

theorem dropWhile_cons_not {α : Type} (p : α → Bool) :
    ∀ (l : List α) {c : α} {cs : List α}, List.dropWhile p l = c :: cs → p c = false := by
  intro l
  induction l with
  | nil => intro c cs h; simp [List.dropWhile] at h
  | cons a l ih =>
    intro c cs h
    by_cases ha : p a = true
    · rw [List.dropWhile_cons_of_pos ha] at h
      exact ih h
    · rw [List.dropWhile_cons_of_neg ha] at h
      cases h
      simpa using ha

theorem dropWhile_dropWhile {α : Type} (p : α → Bool) (l : List α) :
    List.dropWhile p (List.dropWhile p l) = List.dropWhile p l := by
  cases h : List.dropWhile p l with
  | nil => simp
  | cons c cs => rw [List.dropWhile_cons_of_neg (by simp [dropWhile_cons_not p l h])]

theorem dropTrailing_idem (l : List Char) : dropTrailing (dropTrailing l) = dropTrailing l := by
  unfold dropTrailing
  rw [List.reverse_reverse, dropWhile_dropWhile]

theorem stripTrailingSlashes_idem (s : String) :
    stripTrailingSlashes (stripTrailingSlashes s) = stripTrailingSlashes s := by
  unfold stripTrailingSlashes
  exact congrArg String.mk (dropTrailing_idem s.data)

theorem dropTrailing_ne_slash_suffix (l : List Char) (front : List Char) :
    dropTrailing l ≠ front ++ ['/'] := by
  intro h
  have h2 : List.dropWhile (· == '/') l.reverse = '/' :: front.reverse := by
    have := congrArg List.reverse h
    rwa [dropTrailing, List.reverse_reverse, List.reverse_append] at this
  have := dropWhile_cons_not (· == '/') l.reverse h2
  simp at this

theorem stripTrailingSlashes_ne_root (s : String) : stripTrailingSlashes s ≠ "/" := by
  intro h
  have hd : dropTrailing s.data = [] ++ ['/'] := by
    have := congrArg String.data h
    simpa [stripTrailingSlashes] using this
  exact dropTrailing_ne_slash_suffix s.data [] hd

theorem stripTrailingSlashes_ne_base_slash (s : String) (bp : String) :
    stripTrailingSlashes s ≠ bp ++ "/" := by
  intro h
  have hd : dropTrailing s.data = bp.data ++ ['/'] := by
    have := congrArg String.data h
    simpa [stripTrailingSlashes] using this
  exact dropTrailing_ne_slash_suffix s.data bp.data hd

theorem normalizeCanonicalPath_idem (cfg : SiteConfig) (p : String) :
    normalizeCanonicalPath cfg (normalizeCanonicalPath cfg p) = normalizeCanonicalPath cfg p := by
  unfold normalizeCanonicalPath
  by_cases h1 : p = "/" ∨ p = cfg.basePathname ++ "/"
  · simp [h1]
  · simp only [if_neg h1]
    by_cases h2 : stripTrailingSlashes p = ""
    · simp [h2]
    · simp only [if_neg h2]
      have hq1 : ¬(stripTrailingSlashes p = "/" ∨
          stripTrailingSlashes p = cfg.basePathname ++ "/") := by
        rintro (h | h)
        · exact stripTrailingSlashes_ne_root p h
        · exact stripTrailingSlashes_ne_base_slash p cfg.basePathname h
      simp [if_neg hq1, stripTrailingSlashes_idem, h2]

/-! ## Inversion and introduction for assertValidCanonical -/

theorem assertValidCanonical_ok_inv (cfg : SiteConfig) (v u : ParsedUrl)
    (h : assertValidCanonical cfg v = .ok u) :
    v.protocol = "https:"
    ∧ jsEndsWith v.hostname cfg.hostname = true
    ∧ v.hash = ""
    ∧ v.searchParams.any (fun p => !(isAllowedCanonicalSearchParam p.1)) = false
    ∧ (match getParam v.searchParams "page" with
       | some w => w != "" && !(isPositiveIntegerString w)
       | none => false) = false
    ∧ u = { v with pathname := normalizeCanonicalPath cfg v.pathname } := by
  unfold assertValidCanonical at h
  split at h
  · exact absurd h (by simp)
  · split at h
    · exact absurd h (by simp)
    · split at h
      · exact absurd h (by simp)
      · split at h
        · exact absurd h (by simp)
        · split at h
          · exact absurd h (by simp)
          · rename_i h1 h2 h3 h4 h5
            refine ⟨by simpa using h1, by simpa using h2, by simpa using h3,
              by simpa using h4, by simpa using h5, ?_⟩
            cases h
            rfl

theorem assertValidCanonical_ok_intro (cfg : SiteConfig) (v : ParsedUrl)
    (h1 : v.protocol = "https:")
    (h2 : jsEndsWith v.hostname cfg.hostname = true)
    (h3 : v.hash = "")
    (h4 : v.searchParams.any (fun p => !(isAllowedCanonicalSearchParam p.1)) = false)
    (h5 : (match getParam v.searchParams "page" with
           | some w => w != "" && !(isPositiveIntegerString w)
           | none => false) = false) :
    assertValidCanonical cfg v = .ok { v with pathname := normalizeCanonicalPath cfg v.pathname } := by
  unfold assertValidCanonical
  rw [if_neg (by simp [h1]), if_neg (by simp [h2]), if_neg (by simp [h3]),
    if_neg (by simp [h4]), if_neg (by simp [h5])]

/-- Refinement target for claim C2, written from the (amended) spec
wording: the validator rejects exactly when the URL is not https, its
hostname does not end with the configured hostname, it carries a hash
fragment, it has a query parameter whose key is not the allow-listed
page key, or the first non-empty page value is not a positive decimal
integer without leading zeros. -/
def canonicalRejectSpec (cfg : SiteConfig) (u : ParsedUrl) : Bool :=
  (u.protocol != "https:")
    || !(jsEndsWith u.hostname cfg.hostname)
    || (u.hash != "")
    || (u.searchParams.any (fun p => p.1 != "page"))
    || (match getParam u.searchParams "page" with
        | some v => v != "" && !(isPositiveIntegerString v)
        | none => false)

/-- Refinement target for claim C2, written from the (amended) spec
wording: the accepted URL is returned with the trailing slashes of its
path removed, except that the root path and the base pathname followed
by a slash are kept as they are. -/
def canonicalResultSpec (cfg : SiteConfig) (u : ParsedUrl) : ParsedUrl :=
  { u with pathname :=
      if u.pathname = "/" ∨ u.pathname = cfg.basePathname ++ "/" then u.pathname
      else if stripTrailingSlashes u.pathname = "" then "/"
      else stripTrailingSlashes u.pathname }

/-- C2 (amended): assertValidCanonical rejects exactly under the
conditions of canonicalRejectSpec (which, compared to the claim as
written, adds the hostname-suffix condition), and otherwise returns the
URL with the path normalized as canonicalResultSpec describes (which,
compared to the claim as written, exempts the root path and the base
pathname followed by a slash from trailing-slash removal). -/
theorem assertValidCanonical_refines_spec (cfg : SiteConfig) (u : ParsedUrl) :
    (assertValidCanonical cfg u).toOption =
      if canonicalRejectSpec cfg u then none else some (canonicalResultSpec cfg u) := by
  unfold assertValidCanonical canonicalRejectSpec canonicalResultSpec normalizeCanonicalPath
  cases h1 : (u.protocol != "https:") <;>
    cases h2 : jsEndsWith u.hostname cfg.hostname <;>
      cases h3 : (u.hash != "") <;>
        cases h4 : u.searchParams.any (fun p => !(isAllowedCanonicalSearchParam p.1)) <;>
          cases h5 : (match getParam u.searchParams "page" with
                      | some v => v != "" && !(isPositiveIntegerString v)
                      | none => false) <;>
            simp_all [isAllowedCanonicalSearchParam, Except.toOption, bne]
  exact h4

/-- C2, the claim as frozen, is false on the code at two concrete
inputs.  First, the URL https://example.com/ is an absolute https URL
with no hash fragment and no query parameters, so the claim as written
says the validator accepts it; the code rejects it because its hostname
does not end with the configured hostname.  Second, the code accepts
the URL https://wiedza.joga.yoga// and returns it with the path // kept
verbatim, although the claim says trailing slashes of the path are
removed. -/
theorem assertValidCanonical_spec_counterexample :
    (assertValidCanonical defaultSiteConfig
        { protocol := "https:", hostname := "example.com", pathname := "/"
          searchParams := [], hash := "" }).toOption = none
    ∧ assertValidCanonical defaultSiteConfig
        { protocol := "https:", hostname := "wiedza.joga.yoga", pathname := "//"
          searchParams := [], hash := "" }
      = .ok { protocol := "https:", hostname := "wiedza.joga.yoga", pathname := "//"
              searchParams := [], hash := "" } := by
  exact ⟨rfl, rfl⟩

/-- C1 (amended): every URL accepted by assertValidCanonical has a
hostname that ends with the configured hostname (the code checks a
string suffix, not equality), the hostname is returned unchanged, and
consequently every URL whose hostname does not end with the configured
hostname is rejected. -/
theorem assertValidCanonical_hostname (cfg : SiteConfig) (u r : ParsedUrl)
    (h : assertValidCanonical cfg u = .ok r) :
    jsEndsWith u.hostname cfg.hostname = true ∧ r.hostname = u.hostname := by
  obtain ⟨-, h2, -, -, -, hu⟩ := assertValidCanonical_ok_inv cfg u r h
  exact ⟨h2, by rw [hu]⟩

/-- Witness for C1 at the configured site root URL. -/
theorem assertValidCanonical_hostname_witness :
    jsEndsWith "wiedza.joga.yoga" defaultSiteConfig.hostname = true
    ∧ ("wiedza.joga.yoga" : String) = "wiedza.joga.yoga" :=
  assertValidCanonical_hostname defaultSiteConfig
    { protocol := "https:", hostname := "wiedza.joga.yoga", pathname := "/"
      searchParams := [], hash := "" }
    { protocol := "https:", hostname := "wiedza.joga.yoga", pathname := "/"
      searchParams := [], hash := "" }
    rfl

/-- C1, the claim as frozen, is false on the code: the URL
https://evil-wiedza.joga.yoga/ is accepted by assertValidCanonical
although its hostname differs from the configured hostname
wiedza.joga.yoga, because the code only checks a string suffix. -/
theorem assertValidCanonical_hostname_counterexample :
    assertValidCanonical defaultSiteConfig
        { protocol := "https:", hostname := "evil-wiedza.joga.yoga", pathname := "/"
          searchParams := [], hash := "" }
      = .ok { protocol := "https:", hostname := "evil-wiedza.joga.yoga", pathname := "/"
              searchParams := [], hash := "" }
    ∧ ("evil-wiedza.joga.yoga" : String) ≠ defaultSiteConfig.hostname := by
  refine ⟨rfl, ?_⟩
  decide

/-! ## Claim C8: buildCanonicalUrl produces fixed points -/

theorem buildCanonicalInternal_ok_searchParams (cfg : SiteConfig) (pathname : String)
    (ps : List (String × String)) (u : ParsedUrl)
    (h : buildCanonicalInternal cfg pathname (some ps) = .ok u) :
    u.searchParams = ps := by
  unfold buildCanonicalInternal at h
  obtain ⟨-, -, -, -, -, hu⟩ := assertValidCanonical_ok_inv cfg _ u h
  subst hu
  rfl

theorem filterCanonicalParams_shape (ps : List (String × String)) :
    filterCanonicalParams ps = []
    ∨ ∃ v, filterCanonicalParams ps = [("page", v)]
        ∧ v ≠ "1" ∧ isPositiveIntegerString v = true := by
  unfold filterCanonicalParams
  cases hg : getParam ps "page" with
  | none => exact Or.inl rfl
  | some v =>
    by_cases hv : (v != "" && v != "1" && isPositiveIntegerString v) = true
    · refine Or.inr ⟨v, by simp [hv], ?_, ?_⟩
      · have h2 := (Bool.and_eq_true _ _).mp ((Bool.and_eq_true _ _).mp hv).1
        simpa [bne] using h2.2
      · exact ((Bool.and_eq_true _ _).mp hv).2
    · simp [hv]

theorem assertValidCanonical_idem (cfg : SiteConfig) (v u : ParsedUrl)
    (h : assertValidCanonical cfg v = .ok u) :
    assertValidCanonical cfg u = .ok u := by
  obtain ⟨h1, h2, h3, h4, h5, hu⟩ := assertValidCanonical_ok_inv cfg v u h
  subst hu
  have := assertValidCanonical_ok_intro cfg
    { v with pathname := normalizeCanonicalPath cfg v.pathname } h1 h2 h3 h4 h5
  simpa [normalizeCanonicalPath_idem] using this

/-- C8 (amended): every URL returned by buildCanonicalUrl is a fixed
point of assertValidCanonical (validating it again succeeds and returns
it unchanged); moreover, whenever a search argument is provided (a
string or a URLSearchParams value), the resulting query is either empty
or exactly one page parameter whose value is a positive integer string
different from the string 1.  (The claim as written also asserted the
query shape when no search argument is given, but then a query embedded
in the pathname survives validation unfiltered, see the
counterexample.) -/
theorem buildCanonicalUrl_fixedPoint (cfg : SiteConfig) (pathname : String)
    (search : SearchInput) (u : ParsedUrl)
    (h : buildCanonicalUrl cfg pathname search = .ok u) :
    assertValidCanonical cfg u = .ok u
    ∧ (search ≠ .absent →
        u.searchParams = []
        ∨ ∃ v, u.searchParams = [("page", v)]
            ∧ v ≠ "1" ∧ isPositiveIntegerString v = true) := by
  refine ⟨?_, ?_⟩
  · unfold buildCanonicalUrl buildCanonicalInternal at h
    exact assertValidCanonical_idem cfg _ u h
  · intro hne
    cases search with
    | absent => exact absurd rfl hne
    | str s =>
      have h2 : buildCanonicalInternal cfg pathname
          (some (filterCanonicalParams (parseSearchString s))) = .ok u := h
      rw [buildCanonicalInternal_ok_searchParams cfg pathname _ u h2]
      exact filterCanonicalParams_shape (parseSearchString s)
    | params ps =>
      have h2 : buildCanonicalInternal cfg pathname
          (some (filterCanonicalParams ps)) = .ok u := h
      rw [buildCanonicalInternal_ok_searchParams cfg pathname _ u h2]
      exact filterCanonicalParams_shape ps

/-- Witness for C8: building the canonical listing URL for page 2. -/
theorem buildCanonicalUrl_fixedPoint_witness :
    assertValidCanonical defaultSiteConfig
        { protocol := "https:", hostname := "wiedza.joga.yoga", pathname := "/artykuly"
          searchParams := [("page", "2")], hash := "" }
      = .ok { protocol := "https:", hostname := "wiedza.joga.yoga", pathname := "/artykuly"
              searchParams := [("page", "2")], hash := "" }
    ∧ (SearchInput.str "page=2&utm_source=test" ≠ .absent →
        ({ protocol := "https:", hostname := "wiedza.joga.yoga", pathname := "/artykuly"
           searchParams := [("page", "2")], hash := "" } : ParsedUrl).searchParams = []
        ∨ ∃ v, ({ protocol := "https:", hostname := "wiedza.joga.yoga", pathname := "/artykuly"
                  searchParams := [("page", "2")], hash := "" } : ParsedUrl).searchParams
              = [("page", v)]
            ∧ v ≠ "1" ∧ isPositiveIntegerString v = true) :=
  buildCanonicalUrl_fixedPoint defaultSiteConfig "/artykuly"
    (.str "page=2&utm_source=test")
    { protocol := "https:", hostname := "wiedza.joga.yoga", pathname := "/artykuly"
      searchParams := [("page", "2")], hash := "" }
    rfl

/-- C8, the claim as frozen, is false on the code: when no search
argument is given, a query embedded in the pathname argument reaches the
validator unfiltered, so buildCanonicalUrl returns a URL that keeps the
page parameter with the value 1, which the claim says is never kept. -/
theorem buildCanonicalUrl_page_one_counterexample :
    buildCanonicalUrl defaultSiteConfig "/artykuly?page=1" .absent
      = .ok { protocol := "https:", hostname := "wiedza.joga.yoga", pathname := "/artykuly"
              searchParams := [("page", "1")], hash := "" } := by
  rfl

/-! ## Trim idempotence -/

theorem dropWhile_eq_self_of_prefix {α : Type} (p : α → Bool) {l r : List α}
    (h : List.dropWhile p l = l) (hr : r <+: l) : List.dropWhile p r = r := by
  cases r with
  | nil => rfl
  | cons c cs =>
    obtain ⟨t, ht⟩ := hr
    have hl : List.dropWhile p l = c :: (cs ++ t) := by rw [h]; exact ht.symm
    have hc : p c = false := dropWhile_cons_not p l hl
    rw [List.dropWhile_cons_of_neg (by simp [hc])]

theorem jsTrim_idem (s : String) : jsTrim (jsTrim s) = jsTrim s := by
  have key : ∀ l : List Char,
      ((((l.dropWhile isJsWhitespace).reverse.dropWhile isJsWhitespace).reverse.dropWhile
          isJsWhitespace).reverse.dropWhile isJsWhitespace).reverse
        = ((l.dropWhile isJsWhitespace).reverse.dropWhile isJsWhitespace).reverse := by
    intro l
    have h1 : List.dropWhile isJsWhitespace (l.dropWhile isJsWhitespace)
        = l.dropWhile isJsWhitespace := dropWhile_dropWhile _ l
    have hpre :
        ((l.dropWhile isJsWhitespace).reverse.dropWhile isJsWhitespace).reverse
          <+: l.dropWhile isJsWhitespace := by
      obtain ⟨t, ht⟩ := List.dropWhile_suffix
        (l := (l.dropWhile isJsWhitespace).reverse) (p := isJsWhitespace)
      refine ⟨t.reverse, ?_⟩
      have := congrArg List.reverse ht
      simpa using this
    have h2 := dropWhile_eq_self_of_prefix isJsWhitespace h1 hpre
    rw [h2, List.reverse_reverse, dropWhile_dropWhile]
  exact congrArg String.mk (key s.data)

theorem mem_filter_trim {t : String} {l : List String}
    (ht : t ∈ l.filter (fun s => s != "")) (hl : ∀ x ∈ l, ∃ y, x = jsTrim y) :
    jsTrim t = t ∧ t ≠ "" := by
  rw [List.mem_filter] at ht
  obtain ⟨hm, hne⟩ := ht
  obtain ⟨y, hy⟩ := hl t hm
  subst hy
  exact ⟨jsTrim_idem y, by simpa using hne⟩

/-! ## Claim C3: toPaged is total and tolerant -/

theorem toPaged_items_eq {T : Type} (data : JsValue) (item : JsValue → Option T) :
    (toPaged data item).items = parseItems item (itemsSourceOf data) := by
  cases data <;> rfl

/-- C3: toPaged is a total function into the record with exactly the
fields items, total, page, page_size and total_pages (the first
conjunct is the structure eta law making the shape explicit); every
input that is neither an array nor an object yields the empty paged
record with total 0, page 1, page_size 0 and total_pages 0; and
whenever the selected items source fails the array schema parse, the
items field is the empty list. -/
theorem toPaged_tolerant {T : Type} (data : JsValue) (item : JsValue → Option T) :
    toPaged data item
        = { items := (toPaged data item).items, total := (toPaged data item).total
            page := (toPaged data item).page, page_size := (toPaged data item).page_size
            total_pages := (toPaged data item).total_pages }
    ∧ (isJsArray data = false → isJsObject data = false → toPaged data item = emptyPaged)
    ∧ (zodArrayParse item (itemsSourceOf data) = none → (toPaged data item).items = []) := by
  refine ⟨rfl, ?_, ?_⟩
  · intro ha ho
    cases data <;> simp_all [isJsArray, isJsObject] <;> rfl
  · intro hz
    rw [toPaged_items_eq]
    cases h : itemsSourceOf data <;> rw [h] at hz <;> simp [parseItems, hz]

/-- Witness for C3 at a numeric input and the article-summary schema. -/
theorem toPaged_tolerant_witness :
    toPaged (.vNum (.fin 3)) articleSummaryParse = emptyPaged
    ∧ (toPaged (.vNum (.fin 3)) articleSummaryParse).items = [] :=
  ⟨(toPaged_tolerant (.vNum (.fin 3)) articleSummaryParse).2.1 rfl rfl,
   (toPaged_tolerant (.vNum (.fin 3)) articleSummaryParse).2.2 rfl⟩

/-! ## Claim C7: tags and section normalization -/

theorem zodListParse_vStr (xs : List String) :
    zodListParse zodStringParse (xs.map JsValue.vStr) = some xs := by
  induction xs with
  | nil => rfl
  | cons x xs ih => simp [zodListParse, ih, zodStringParse]

/-- C7: the tags field accepts a string array (trimming each element and
dropping blanks), a string that parses as a JSON array (stringifying,
trimming and dropping blanks), any other string (split on commas,
trimmed, blanks dropped), null, undefined and an absent value (zod
passes an absent field as undefined, caught by the default), always
producing a list of trimmed non-empty strings with the empty list as
default; the section field trims a non-blank string and turns a blank
or missing one into null. -/
theorem tags_section_normalization :
    (∀ xs : List String,
      tagsFieldParse (.vArr (xs.map .vStr))
        = some ((xs.map jsTrim).filter (fun s => s != "")))
    ∧ (∀ s parsed, jsonParse s = some (.vArr parsed) →
        tagsFieldParse (.vStr s)
          = some ((parsed.map (fun t => jsTrim (jsToStringF (s.data.length + 1) t))).filter
              (fun x => x != "")))
    ∧ (∀ s, (∀ parsed, jsonParse s ≠ some (.vArr parsed)) →
        tagsFieldParse (.vStr s)
          = some (((splitOnChar s.data ',').map (fun piece => jsTrim ⟨piece⟩)).filter
              (fun x => x != "")))
    ∧ tagsFieldParse .vNull = some []
    ∧ tagsFieldParse .vUndefined = some []
    ∧ (∀ v ts, tagsFieldParse v = some ts → ∀ t ∈ ts, jsTrim t = t ∧ t ≠ "")
    ∧ (∀ s, sectionFieldParse (.vStr s) = some (if jsTrim s = "" then none else some (jsTrim s)))
    ∧ sectionFieldParse .vNull = some none
    ∧ sectionFieldParse .vUndefined = some none := by
  refine ⟨?_, ?_, ?_, rfl, rfl, ?_, ?_, rfl, rfl⟩
  · intro xs
    simp [tagsFieldParse, tagsValueParse, zodListParse_vStr]
  · intro s parsed h
    simp [tagsFieldParse, tagsValueParse, h]
  · intro s h
    cases hj : jsonParse s with
    | none => simp [tagsFieldParse, tagsValueParse, hj]
    | some v =>
      cases v with
      | vArr parsed => exact absurd hj (h parsed)
      | vNull => simp [tagsFieldParse, tagsValueParse, hj]
      | vUndefined => simp [tagsFieldParse, tagsValueParse, hj]
      | vBool b => simp [tagsFieldParse, tagsValueParse, hj]
      | vNum n => simp [tagsFieldParse, tagsValueParse, hj]
      | vStr s2 => simp [tagsFieldParse, tagsValueParse, hj]
      | vObj fields => simp [tagsFieldParse, tagsValueParse, hj]
  · intro v ts h t ht
    cases v with
    | vUndefined =>
      simp [tagsFieldParse] at h
      subst h
      cases ht
    | vNull =>
      simp [tagsFieldParse, tagsValueParse] at h
      subst h
      cases ht
    | vArr xs =>
      simp only [tagsFieldParse, tagsValueParse, Option.map_eq_some'] at h
      obtain ⟨l, -, hl⟩ := h
      subst hl
      exact mem_filter_trim ht (by
        intro x hx
        rw [List.mem_map] at hx
        obtain ⟨y, -, hy⟩ := hx
        exact ⟨y, hy.symm⟩)
    | vStr s =>
      simp only [tagsFieldParse, tagsValueParse] at h
      cases hj : jsonParse s with
      | some v2 =>
        cases v2 with
        | vArr parsed =>
          rw [hj] at h
          simp only [Option.some.injEq] at h
          subst h
          refine mem_filter_trim ht ?_
          intro x hx
          rw [List.mem_map] at hx
          obtain ⟨y, -, hy⟩ := hx
          exact ⟨jsToStringF (s.data.length + 1) y, hy.symm⟩
        | vNull => rw [hj] at h; simp only [Option.some.injEq] at h; subst h
                   exact mem_filter_trim ht (by
                     intro x hx
                     rw [List.mem_map] at hx
                     obtain ⟨y, -, hy⟩ := hx
                     exact ⟨(⟨y⟩ : String), hy.symm⟩)
        | vUndefined =>
          rw [hj] at h; simp only [Option.some.injEq] at h; subst h
          exact mem_filter_trim ht (by
            intro x hx
            rw [List.mem_map] at hx
            obtain ⟨y, -, hy⟩ := hx
            exact ⟨(⟨y⟩ : String), hy.symm⟩)
        | vBool b => rw [hj] at h; simp only [Option.some.injEq] at h; subst h
                     exact mem_filter_trim ht (by
                       intro x hx
                       rw [List.mem_map] at hx
                       obtain ⟨y, -, hy⟩ := hx
                       exact ⟨(⟨y⟩ : String), hy.symm⟩)
        | vNum n => rw [hj] at h; simp only [Option.some.injEq] at h; subst h
                    exact mem_filter_trim ht (by
                      intro x hx
                      rw [List.mem_map] at hx
                      obtain ⟨y, -, hy⟩ := hx
                      exact ⟨(⟨y⟩ : String), hy.symm⟩)
        | vStr s2 => rw [hj] at h; simp only [Option.some.injEq] at h; subst h
                     exact mem_filter_trim ht (by
                       intro x hx
                       rw [List.mem_map] at hx
                       obtain ⟨y, -, hy⟩ := hx
                       exact ⟨(⟨y⟩ : String), hy.symm⟩)
        | vObj f2 => rw [hj] at h; simp only [Option.some.injEq] at h; subst h
                     exact mem_filter_trim ht (by
                       intro x hx
                       rw [List.mem_map] at hx
                       obtain ⟨y, -, hy⟩ := hx
                       exact ⟨(⟨y⟩ : String), hy.symm⟩)
      | none =>
        rw [hj] at h
        simp only [Option.some.injEq] at h
        subst h
        refine mem_filter_trim ht ?_
        intro x hx
        rw [List.mem_map] at hx
        obtain ⟨y, -, hy⟩ := hx
        exact ⟨(⟨y⟩ : String), hy.symm⟩
    | vBool b => simp [tagsFieldParse, tagsValueParse] at h
    | vNum n => simp [tagsFieldParse, tagsValueParse] at h
    | vObj fields => simp [tagsFieldParse, tagsValueParse] at h
  · intro s
    simp only [sectionFieldParse, sectionValueParse]
    by_cases h : jsTrim s = ""
    · simp [h, String.length]
    · have hlen : 0 < (jsTrim s).length := by
        cases hq : (jsTrim s).data with
        | nil =>
          exact absurd (by
            have : jsTrim s = ⟨[]⟩ := by
              cases hjs : jsTrim s
              simp only [hjs] at hq
              simp [hq]
            simpa using this) h
        | cons a as => simp [String.length, hq]
      simp [h, hlen]

/-- Witness for C7: a JSON-encoded tags string and a blank section. -/
theorem tags_section_normalization_witness :
    tagsFieldParse (.vStr "[\" yoga \",\"\"]") = some ["yoga"]
    ∧ sectionFieldParse (.vStr "  ") = some none := by
  constructor
  · have h := tags_section_normalization.2.1 "[\" yoga \",\"\"]" [.vStr " yoga ", .vStr ""] (by rfl)
    simpa using h
  · have h := tags_section_normalization.2.2.2.2.2.2.1 "  "
    simpa using h

/-! ## Claim C9: article-list query serialization -/

/-- C9: a per_page parameter is emitted exactly when the given per_page
is a finite number, and then carries the floor clamped into the range
from MIN_PER_PAGE to MAX_PER_PAGE; a page parameter is emitted exactly
when the given page is a finite number at least 1, and then carries its
floor. -/
theorem serializeArticleListQuery_pagination (query : ArticleListQuery) :
    getParam (serializeArticleListQuery query) "per_page"
      = (match query.per_page with
         | some (.fin x) => some (intToString (min (max ⌊x⌋ MIN_PER_PAGE) MAX_PER_PAGE))
         | _ => none)
    ∧ getParam (serializeArticleListQuery query) "page"
      = (match query.page with
         | some (.fin x) => if 1 ≤ x then some (intToString ⌊x⌋) else none
         | _ => none) := by
  have e1 : (("page" : String) == "per_page") = false := by decide
  have e2 : (("per_page" : String) == "per_page") = true := by decide
  have e3 : (("page" : String) == "page") = true := by decide
  have e4 : (("per_page" : String) == "page") = false := by decide
  have secPart : ∀ k : String, ("section" == k) = false →
      ((match query.«section» with
        | some s => if s != "" && jsTrim s != "" then [("section", jsTrim s)] else []
        | none => []) : List (String × String)).find? (fun p => p.1 == k) = none := by
    intro k hk
    cases query.«section» with
    | none => rfl
    | some s =>
      dsimp only
      split
      · simp [List.find?_cons, hk]
      · rfl
  have qPart : ∀ k : String, ("q" == k) = false →
      ((match query.q with
        | some s => if s != "" && jsTrim s != "" then [("q", jsTrim s)] else []
        | none => []) : List (String × String)).find? (fun p => p.1 == k) = none := by
    intro k hk
    cases query.q with
    | none => rfl
    | some s =>
      dsimp only
      split
      · simp [List.find?_cons, hk]
      · rfl
  have pagePartPer : ((match query.page with
      | some (.fin x) => if 1 ≤ x then [("page", intToString ⌊x⌋)] else []
      | _ => []) : List (String × String)).find? (fun p => p.1 == "per_page") = none := by
    cases query.page with
    | none => rfl
    | some n =>
      cases n with
      | fin x => dsimp only; split <;> simp [List.find?_cons, e1]
      | nan => rfl
      | posInf => rfl
      | negInf => rfl
  have perPartPer : ((match query.per_page with
      | some (.fin x) => [("per_page", intToString (min (max ⌊x⌋ MIN_PER_PAGE) MAX_PER_PAGE))]
      | _ => []) : List (String × String)).find? (fun p => p.1 == "per_page")
      = (match query.per_page with
         | some (.fin x) =>
           some ("per_page", intToString (min (max ⌊x⌋ MIN_PER_PAGE) MAX_PER_PAGE))
         | _ => none) := by
    cases query.per_page with
    | none => rfl
    | some n =>
      cases n with
      | fin x => simp [List.find?_cons, e2]
      | nan => rfl
      | posInf => rfl
      | negInf => rfl
  have pagePartPage : ((match query.page with
      | some (.fin x) => if 1 ≤ x then [("page", intToString ⌊x⌋)] else []
      | _ => []) : List (String × String)).find? (fun p => p.1 == "page")
      = (match query.page with
         | some (.fin x) => if 1 ≤ x then some ("page", intToString ⌊x⌋) else none
         | _ => none) := by
    cases query.page with
    | none => rfl
    | some n =>
      cases n with
      | fin x => dsimp only; split <;> simp [List.find?_cons, e3]
      | nan => rfl
      | posInf => rfl
      | negInf => rfl
  have perPartPage : ((match query.per_page with
      | some (.fin x) => [("per_page", intToString (min (max ⌊x⌋ MIN_PER_PAGE) MAX_PER_PAGE))]
      | _ => []) : List (String × String)).find? (fun p => p.1 == "page") = none := by
    cases query.per_page with
    | none => rfl
    | some n =>
      cases n with
      | fin x => simp [List.find?_cons, e4]
      | nan => rfl
      | posInf => rfl
      | negInf => rfl
  constructor
  · unfold serializeArticleListQuery getParam
    rw [List.find?_append, List.find?_append, List.find?_append,
      pagePartPer, perPartPer, secPart "per_page" (by decide), qPart "per_page" (by decide)]
    cases query.per_page with
    | none => rfl
    | some n => cases n <;> rfl
  · unfold serializeArticleListQuery getParam
    rw [List.find?_append, List.find?_append, List.find?_append,
      pagePartPage, perPartPage, secPart "page" (by decide), qPart "page" (by decide)]
    cases query.page with
    | none => rfl
    | some n =>
      cases n with
      | fin x => dsimp only; split <;> rfl
      | nan => rfl
      | posInf => rfl
      | negInf => rfl

/-! ## Claim C4: apiFetch error classification -/

/-- C4: apiFetch throws NotFoundError exactly on status 404,
ServiceUnavailableError exactly on 502 and 503, a plain ApiError on
every other non-ok status, carries the response status on every thrown
error, returns the payload on every ok response, and turns a failed
fetch into NetworkError with status 0. -/
theorem apiFetch_status_classification (status : Nat) (payload : JsValue) :
    (errName (apiFetchClassify (.success status payload)) = some "NotFoundError"
      ↔ status = 404)
    ∧ (errName (apiFetchClassify (.success status payload)) = some "ServiceUnavailableError"
      ↔ (status = 502 ∨ status = 503))
    ∧ (errName (apiFetchClassify (.success status payload)) = some "ApiError"
      ↔ (responseOk status = false ∧ status ≠ 404 ∧ status ≠ 502 ∧ status ≠ 503))
    ∧ (responseOk status = true →
        apiFetchClassify (.success status payload) = .ok (jsCoalesce payload .vNull))
    ∧ (∀ e, apiFetchClassify (.success status payload) = .error e → e.status = status)
    ∧ apiFetchClassify .failure = .error { name := "NetworkError", status := 0 } := by
  have h404 : responseOk 404 = false := by decide
  have h502 : responseOk 502 = false := by decide
  have h503 : responseOk 503 = false := by decide
  unfold apiFetchClassify
  by_cases hok : responseOk status = true
  · have hn4 : status ≠ 404 := by intro h; rw [h] at hok; exact absurd hok (by decide)
    have hn2 : status ≠ 502 := by intro h; rw [h] at hok; exact absurd hok (by decide)
    have hn3 : status ≠ 503 := by intro h; rw [h] at hok; exact absurd hok (by decide)
    simp [hok, errName, hn4, hn2, hn3]
  · rw [Bool.not_eq_true] at hok
    by_cases h4 : status = 404
    · subst h4
      simp [hok, errName]
    · by_cases h23 : status = 502 ∨ status = 503
      · rcases h23 with h | h <;> subst h <;> simp [errName, h502, h503]
      · push_neg at h23
        simp [hok, errName, h4, h23.1, h23.2]

/-- Witness for C4 at status 503. -/
theorem apiFetch_status_classification_witness :
    (errName (apiFetchClassify (.success 503 .vNull)) = some "NotFoundError" ↔ (503 : Nat) = 404)
    ∧ (errName (apiFetchClassify (.success 503 .vNull)) = some "ServiceUnavailableError"
      ↔ ((503 : Nat) = 502 ∨ (503 : Nat) = 503))
    ∧ (errName (apiFetchClassify (.success 503 .vNull)) = some "ApiError"
      ↔ (responseOk 503 = false ∧ (503 : Nat) ≠ 404 ∧ (503 : Nat) ≠ 502 ∧ (503 : Nat) ≠ 503))
    ∧ (responseOk 503 = true →
        apiFetchClassify (.success 503 .vNull) = .ok (jsCoalesce .vNull .vNull))
    ∧ (∀ e, apiFetchClassify (.success 503 .vNull) = .error e → e.status = 503)
    ∧ apiFetchClassify .failure = .error { name := "NetworkError", status := 0 } :=
  apiFetch_status_classification 503 .vNull

/-! ## Claim C5: createArticle validates before its single request -/

/-- C5: createArticle issues at most one HTTP request per invocation,
every request it issues is the single POST to /articles (so there is no
retry), and a payload with a topic shorter than 5 or longer than 200
characters, more than 6 keywords, or guidance longer than 500
characters makes the schema parse throw before any request is sent. -/
theorem createArticle_single_request (p : ArticleCreateRequest) (outcome : FetchOutcome) :
    (createArticle p outcome).1.length ≤ 1
    ∧ (∀ r ∈ (createArticle p outcome).1, r = { method := "POST", path := "/articles" })
    ∧ ((p.topic.length < 5 ∨ 200 < p.topic.length ∨ 6 < p.keywords.length
          ∨ (∃ g, p.guidance = some g ∧ 500 < g.length)) →
        (createArticle p outcome).1 = [] ∧ (createArticle p outcome).2 = .validationError) := by
  unfold createArticle
  by_cases hv : articleCreateRequestValid p = true
  · rw [if_pos hv]
    unfold articleCreateRequestValid at hv
    simp only [Bool.and_eq_true, decide_eq_true_eq] at hv
    refine ⟨?_, ?_, ?_⟩
    · cases apiFetchClassify outcome <;> simp
    · cases apiFetchClassify outcome <;> simp
    · rintro (h | h | h | ⟨g, hg, hlen⟩)
      · exact absurd hv.1.1.1 (by omega)
      · exact absurd hv.1.1.2 (by omega)
      · exact absurd hv.1.2 (by omega)
      · rw [hg] at hv
        have h5 := hv.2
        simp only [decide_eq_true_eq] at h5
        omega
  · rw [if_neg hv]
    exact ⟨by simp, by simp, fun _ => ⟨rfl, rfl⟩⟩

/-- Witness for C5 at a too-short topic and a failed fetch. -/
theorem createArticle_single_request_witness :
    (createArticle { topic := "hi", rubric_code := none, keywords := [], guidance := none }
        .failure).1 = []
    ∧ (createArticle { topic := "hi", rubric_code := none, keywords := [], guidance := none }
        .failure).2 = .validationError :=
  (createArticle_single_request
      { topic := "hi", rubric_code := none, keywords := [], guidance := none }
      .failure).2.2
    (Or.inl (by decide))

/-! ## Claim C10: safeFetch never throws -/

/-- C10: safeFetch is a total function of the fetch outcome: it returns
the parsed JSON body exactly when the response is ok and the body parses
as JSON, and null on a network failure, a non-ok status, or a JSON parse
failure. -/
theorem safeFetch_classification :
    safeFetch .networkFailure = none
    ∧ (∀ j, safeFetch (.response false j) = none)
    ∧ safeFetch (.response true none) = none
    ∧ (∀ v, safeFetch (.response true (some v)) = some v) :=
  ⟨rfl, fun _ => rfl, rfl, fun _ => rfl⟩

/-! ## Claim C6: citation deduplication -/

theorem citationFold_eq (entries : List ExtractedCitation)
    (ext : List (String × ExtractedCitation)) (intl : List (String × InternalRecommendation)) :
    citationFold entries ext intl
      = (insertAll ext (externalInserts entries), insertAll intl (internalInserts entries)) := by
  induction entries generalizing ext intl with
  | nil => rfl
  | cons e rest ih =>
    cases ha : citationAction e <;>
      simp [citationFold, externalInserts, internalInserts, ha, insertAll, ih]

theorem find?_insertIfAbsent_of_some {V : Type} {m : List (String × V)} {k : String}
    {x : String × V} (k' : String) (v : V)
    (h : m.find? (fun p => p.1 == k) = some x) :
    (insertIfAbsent m k' v).find? (fun p => p.1 == k) = some x := by
  unfold insertIfAbsent
  split
  · exact h
  · rw [List.find?_append, h]
    rfl

theorem find?_insertIfAbsent_self {V : Type} {m : List (String × V)} {k : String} (v : V)
    (h : m.find? (fun p => p.1 == k) = none) :
    (insertIfAbsent m k v).find? (fun p => p.1 == k) = some (k, v) := by
  unfold insertIfAbsent
  rw [if_neg (by simp [h]), List.find?_append, h]
  simp [List.find?_cons]

theorem find?_insertIfAbsent_other {V : Type} {m : List (String × V)} {k k' : String} (v : V)
    (hne : (k' == k) = false) :
    (insertIfAbsent m k' v).find? (fun p => p.1 == k) = m.find? (fun p => p.1 == k) := by
  unfold insertIfAbsent
  split
  · rfl
  · rw [List.find?_append]
    cases hm : m.find? (fun p => p.1 == k) with
    | some x => rfl
    | none => simp [List.find?_cons, hne]

theorem insertAll_find?_some {V : Type} (l : List (String × V)) {m : List (String × V)}
    {k : String} {x : String × V} (h : m.find? (fun p => p.1 == k) = some x) :
    (insertAll m l).find? (fun p => p.1 == k) = some x := by
  induction l generalizing m with
  | nil => exact h
  | cons p rest ih =>
    obtain ⟨k', v⟩ := p
    exact ih (find?_insertIfAbsent_of_some k' v h)

theorem insertAll_find?_none {V : Type} (l : List (String × V)) {m : List (String × V)}
    {k : String} (h : m.find? (fun p => p.1 == k) = none) :
    (insertAll m l).find? (fun p => p.1 == k) = l.find? (fun p => p.1 == k) := by
  induction l generalizing m with
  | nil => exact h
  | cons p rest ih =>
    obtain ⟨k', v⟩ := p
    by_cases hk : (k' == k) = true
    · have hkk : k' = k := eq_of_beq hk
      subst hkk
      have h2 := find?_insertIfAbsent_self v h
      rw [show insertAll m ((k', v) :: rest) = insertAll (insertIfAbsent m k' v) rest from rfl,
        insertAll_find?_some rest h2]
      simp [List.find?_cons]
    · have hkf : (k' == k) = false := by simpa using hk
      have h2 : (insertIfAbsent m k' v).find? (fun p => p.1 == k) = none := by
        rw [find?_insertIfAbsent_other v hkf]
        exact h
      rw [show insertAll m ((k', v) :: rest) = insertAll (insertIfAbsent m k' v) rest from rfl,
        ih h2]
      simp [List.find?_cons, hkf]

theorem insertAll_nodup_keys {V : Type} (l : List (String × V)) {m : List (String × V)}
    (h : (m.map (·.1)).Nodup) : ((insertAll m l).map (·.1)).Nodup := by
  induction l generalizing m with
  | nil => exact h
  | cons p rest ih =>
    obtain ⟨k', v⟩ := p
    refine ih ?_
    unfold insertIfAbsent
    split
    · exact h
    · rename_i hnone
      rw [List.map_append, List.nodup_append]
      refine ⟨h, by simp, ?_⟩
      intro a ha hb
      simp only [List.map_cons, List.map_nil, List.mem_singleton] at hb
      subst hb
      have hfind : m.find? (fun p => p.1 == a) = none := by
        cases hf : m.find? (fun p => p.1 == a) with
        | none => rfl
        | some x => rw [hf] at hnone; simp at hnone
      rw [List.find?_eq_none] at hfind
      rw [List.mem_map] at ha
      obtain ⟨p, hp, hp1⟩ := ha
      exact hfind p hp (by simp [hp1])

theorem insertAll_forall {V : Type} (P : String × V → Prop) (l : List (String × V))
    {m : List (String × V)} (hm : ∀ x ∈ m, P x) (hl : ∀ x ∈ l, P x) :
    ∀ x ∈ insertAll m l, P x := by
  induction l generalizing m with
  | nil => exact hm
  | cons p rest ih =>
    refine ih ?_ (fun x hx => hl x (List.mem_cons_of_mem _ hx))
    intro x hx
    unfold insertIfAbsent at hx
    split at hx
    · exact hm x hx
    · rw [List.mem_append] at hx
      rcases hx with hx | hx
      · exact hm x hx
      · simp only [List.mem_singleton] at hx
        subst hx
        exact hl p (List.mem_cons_self _ _)

theorem find?_of_mem_nodup {V : Type} {m : List (String × V)} {k : String} {v : V}
    (hnd : (m.map (·.1)).Nodup) (hmem : (k, v) ∈ m) :
    m.find? (fun p => p.1 == k) = some (k, v) := by
  induction m with
  | nil => cases hmem
  | cons p rest ih =>
    rw [List.map_cons, List.nodup_cons] at hnd
    rcases List.mem_cons.mp hmem with h | h
    · subst h
      simp [List.find?_cons]
    · have hp1 : p.1 ≠ k := by
        intro hpk
        exact hnd.1 (by
          rw [hpk, List.mem_map]
          exact ⟨(k, v), h, rfl⟩)
      have hne : (p.1 == k) = false := by simpa using hp1
      simp [List.find?_cons, hne, ih hnd.2 h]

theorem citationAction_external_url {e : ExtractedCitation} {k : String}
    {v : ExtractedCitation} (h : citationAction e = .external k v) : v.url = k := by
  simp only [citationAction] at h
  repeat' split at h
  all_goals cases h
  all_goals rfl

theorem citationAction_internal_slug {e : ExtractedCitation} {k : String}
    {v : InternalRecommendation} (h : citationAction e = .internal k v) : v.slug = k := by
  simp only [citationAction] at h
  repeat' split at h
  all_goals cases h
  all_goals rfl

theorem externalInserts_url (payload : JsValue) :
    ∀ x ∈ externalInserts (collectedCitations payload), x.2.url = x.1 := by
  intro x hx
  unfold externalInserts at hx
  rw [List.mem_filterMap] at hx
  obtain ⟨e, -, he⟩ := hx
  cases ha : citationAction e <;> rw [ha] at he
  · cases he
  · cases he
  · cases he
    exact citationAction_external_url ha

theorem internalInserts_slug (payload : JsValue) :
    ∀ x ∈ internalInserts (collectedCitations payload), x.2.slug = x.1 := by
  intro x hx
  unfold internalInserts at hx
  rw [List.mem_filterMap] at hx
  obtain ⟨e, -, he⟩ := hx
  cases ha : citationAction e <;> rw [ha] at he
  · cases he
  · cases he
    exact citationAction_internal_slug ha
  · cases he

/-- C6: the externalCitations list contains no two entries with the same
url and the internalRecommendations list no two entries with the same
slug; and each kept entry is exactly the one the first collected
candidate with that url (or slug) produces, stated through find? over
the ordered list of attempted insertions. -/
theorem extractExternalCitations_dedup (payload : JsValue) :
    ((extractExternalCitations payload).externalCitations.map (·.url)).Nodup
    ∧ ((extractExternalCitations payload).internalRecommendations.map (·.slug)).Nodup
    ∧ (∀ e ∈ (extractExternalCitations payload).externalCitations,
        (externalInserts (collectedCitations payload)).find? (fun p => p.1 == e.url)
          = some (e.url, e))
    ∧ (∀ r ∈ (extractExternalCitations payload).internalRecommendations,
        (internalInserts (collectedCitations payload)).find? (fun p => p.1 == r.slug)
          = some (r.slug, r)) := by
  have hfold := citationFold_eq (collectedCitations payload) [] []
  have hext : (extractExternalCitations payload).externalCitations
      = (insertAll [] (externalInserts (collectedCitations payload))).map (·.2) := by
    unfold extractExternalCitations
    rw [hfold]
  have hint : (extractExternalCitations payload).internalRecommendations
      = (insertAll [] (internalInserts (collectedCitations payload))).map (·.2) := by
    unfold extractExternalCitations
    rw [hfold]
  have hndE : ((insertAll ([] : List (String × ExtractedCitation))
      (externalInserts (collectedCitations payload))).map (·.1)).Nodup :=
    insertAll_nodup_keys _ (by simp)
  have hndI : ((insertAll ([] : List (String × InternalRecommendation))
      (internalInserts (collectedCitations payload))).map (·.1)).Nodup :=
    insertAll_nodup_keys _ (by simp)
  have hinvE : ∀ x ∈ insertAll ([] : List (String × ExtractedCitation))
      (externalInserts (collectedCitations payload)), x.2.url = x.1 :=
    insertAll_forall _ _ (by simp) (externalInserts_url payload)
  have hinvI : ∀ x ∈ insertAll ([] : List (String × InternalRecommendation))
      (internalInserts (collectedCitations payload)), x.2.slug = x.1 :=
    insertAll_forall _ _ (by simp) (internalInserts_slug payload)
  refine ⟨?_, ?_, ?_, ?_⟩
  · rw [hext, List.map_map]
    have heq : (insertAll [] (externalInserts (collectedCitations payload))).map
          ((fun c => c.url) ∘ (·.2))
        = (insertAll [] (externalInserts (collectedCitations payload))).map (·.1) :=
      List.map_congr_left (fun p hp => hinvE p hp)
    rw [heq]
    exact hndE
  · rw [hint, List.map_map]
    have heq : (insertAll [] (internalInserts (collectedCitations payload))).map
          ((fun r => r.slug) ∘ (·.2))
        = (insertAll [] (internalInserts (collectedCitations payload))).map (·.1) :=
      List.map_congr_left (fun p hp => hinvI p hp)
    rw [heq]
    exact hndI
  · intro e he
    rw [hext, List.mem_map] at he
    obtain ⟨p, hp, hpe⟩ := he
    have hkey : p.1 = e.url := by rw [← hpe]; exact (hinvE p hp).symm
    have hmem : (e.url, e) ∈ insertAll ([] : List (String × ExtractedCitation))
        (externalInserts (collectedCitations payload)) := by
      have : p = (e.url, e) := by
        obtain ⟨p1, p2⟩ := p
        simp only at hpe hkey
        rw [hpe, hkey]
      rwa [this] at hp
    have h1 := find?_of_mem_nodup hndE hmem
    rw [insertAll_find?_none _ (by rfl)] at h1
    exact h1
  · intro r hr
    rw [hint, List.mem_map] at hr
    obtain ⟨p, hp, hpr⟩ := hr
    have hkey : p.1 = r.slug := by rw [← hpr]; exact (hinvI p hp).symm
    have hmem : (r.slug, r) ∈ insertAll ([] : List (String × InternalRecommendation))
        (internalInserts (collectedCitations payload)) := by
      have : p = (r.slug, r) := by
        obtain ⟨p1, p2⟩ := p
        simp only at hpr hkey
        rw [hpr, hkey]
      rwa [this] at hp
    have h1 := find?_of_mem_nodup hndI hmem
    rw [insertAll_find?_none _ (by rfl)] at h1
    exact h1

/-- Witness for C6: a payload listing the same external url twice keeps
one entry, the one derived from the first occurrence. -/
theorem extractExternalCitations_dedup_witness :
    (externalInserts (collectedCitations (.vObj [("citations",
        .vArr [.vStr "https://a.com/x", .vStr "https://a.com/x"])]))).find?
        (fun p => p.1 == "https://a.com/x")
      = some ("https://a.com/x", { url := "https://a.com/x", label := "a.com" }) :=
  (extractExternalCitations_dedup (.vObj [("citations",
      .vArr [.vStr "https://a.com/x", .vStr "https://a.com/x"])])).2.2.1
    { url := "https://a.com/x", label := "a.com" }
    (by
      rw [show (extractExternalCitations (.vObj [("citations",
          .vArr [.vStr "https://a.com/x", .vStr "https://a.com/x"])])).externalCitations
          = [{ url := "https://a.com/x", label := "a.com" }] from rfl]
      exact List.mem_singleton.mpr rfl)

end Blog
